import Mathlib

/-!
Verification of the batch conversion pipeline of `markitdown-web/conveter/app.py`:
format classifier, history recorder, converter dispatch, archive extraction,
and the asynchronous batch-conversion worker.
-/

namespace Reguard

/-! ## Format classifier

`extract_archive_safe` (app.py, lines 52-61) classifies each extracted member by
its lower-cased last extension through an inline table `format_map`:
`format_name = format_map.get(ext, 'unknown')` where
`ext = filename_only.split('.')[-1].lower() if '.' in filename_only else ''`.
-/

/-- The inline `format_map` dict of `extract_archive_safe` (app.py lines 54-60). -/
def format_map : List (String × String) :=
  [("pdf", "pdf"), ("doc", "word"), ("docx", "word"),
   ("xls", "excel"), ("xlsx", "excel"), ("ppt", "ppt"), ("pptx", "ppt"),
   ("jpg", "image"), ("jpeg", "image"), ("png", "image"), ("gif", "image"),
   ("html", "html"), ("htm", "html"), ("txt", "text"),
   ("csv", "csv"), ("json", "json"), ("xml", "xml")]

/-- Python's `str.split(sep)` for a one-character separator, on the character
list of the string. -/
def splitOnChar (c : Char) : List Char → List (List Char)
  | [] => [[]]
  | x :: xs =>
    let rest := splitOnChar c xs
    if x = c then [] :: rest
    else
      match rest with
      | [] => [[x]]
      | r :: rs => (x :: r) :: rs

/-- Python `filename.split('.')[-1].lower() if '.' in filename else ''` (app.py line 53). -/
def extOf (filename : String) : String :=
  let cs := filename.data
  if cs.contains '.' then
    String.mk (((splitOnChar '.' cs).getLastD []).map Char.toLower)
  else ""

/-- The classifier applied to each member at extraction time (app.py line 61). -/
def classify (filename : String) : String :=
  (format_map.lookup (extOf filename)).getD "unknown"

/-- The closed tag set named by the spec (spec wording, for comparison with the code). -/
def specTagSet : List String :=
  ["pdf", "word", "excel", "ppt", "image", "audio", "video", "html", "csv",
   "json", "xml", "unknown"]

/-- The actual range of the code's classifier: the values of `format_map`
plus the default tag. -/
def codeTagSet : List String :=
  ["pdf", "word", "excel", "ppt", "image", "html", "text", "csv", "json",
   "xml", "unknown"]

/-! ## History recorder (`add_to_history`, app.py lines 159-179) -/

/-- One history record (the dict built in `add_to_history`). -/
structure HistoryRecord where
  id : String
  original_name : String
  format : String
  file_size : Nat
  md_file_path : String
  download_url : String
  converted_at : String
  status : String
deriving DecidableEq, Repr

/-- The record dict built by `add_to_history`; the fresh uuid and the current
timestamp are inputs of the model. `status` is always `'completed'`. -/
def mkHistoryRecord (uid now original_name file_format : String) (file_size : Nat)
    (md_file_path download_url : String) : HistoryRecord :=
  { id := uid, original_name := original_name, format := file_format,
    file_size := file_size, md_file_path := md_file_path,
    download_url := download_url, converted_at := now, status := "completed" }

/-- Function `add_to_history` (app.py lines 159-179): prepend the new record
(`history.insert(0, record)`), then truncate to the most recent 100
(`if len(history) > 100: history = history[:100]`). -/
def add_to_history (uid now original_name file_format : String) (file_size : Nat)
    (md_file_path download_url : String) (history : List HistoryRecord) :
    List HistoryRecord :=
  let record := mkHistoryRecord uid now original_name file_format file_size
    md_file_path download_url
  let history := record :: history
  if history.length > 100 then history.take 100 else history

/-- Route handler `clear_history`: `save_history([])` (app.py line 532). -/
def clear_history : List HistoryRecord := []

/-- Route handler `delete_history_item` (app.py line 549):
`[item for item in history if item['id'] != history_id]`. -/
def delete_history_item (history : List HistoryRecord) (history_id : String) :
    List HistoryRecord :=
  history.filter (fun r => r.id ≠ history_id)

/-! ## Converter dispatch (`convert_file_content`, app.py lines 892-945)

The per-format converters are external collaborators; each is modelled as a
function from the file path to `Except String String`: `.ok content` when the
Python call returns, `.error msg` when it raises an exception with message
`msg`. `readFile` models `open(path).read()` (it may raise, e.g. on a decode
error), and `csv_converter` takes the file content.
-/

structure ConvEnv where
  pdf_converter : String → Except String String
  pdf_native_converter : String → Except String String
  img_converter : String → Except String String
  word_converter : String → Except String String
  ppt_native_converter : String → Except String String
  audio_converter : String → Except String String
  video_converter : String → Except String String
  csv_converter : String → Except String String
  readFile : String → Except String String

/-- The error document generated when both PDF converters fail
(app.py line 907). -/
def pdfErrorDoc (e e2 : String) : String :=
  "# 转换错误\n\nPDF转换失败\n\nPaddleOCR错误: " ++ e ++ "\n原生转换错误: " ++ e2

/-- The placeholder document of the final `else` branch (app.py line 943). -/
def unsupportedDoc (file_format : String) : String :=
  "# 不支持的格式\n\n文件格式 " ++ file_format ++ " 暂不支持转换"

/-- Dispatch `convert_file_content` (app.py lines 892-945). Branches for `csv`,
`image`, `json`, `xml`, `html` and `word` do not catch converter exceptions
(they propagate, giving `.error`); the `pdf` branch has the two-tier fallback;
`ppt`, `audio` and `video` absorb failures into error documents. -/
def convert_file_content (env : ConvEnv) (file_path file_format : String) :
    Except String String :=
  if file_format = "csv" then
    match env.readFile file_path with
    | .error e => .error e
    | .ok content => env.csv_converter content
  else if file_format = "pdf" then
    match env.pdf_converter file_path with
    | .ok content => .ok content
    | .error e =>
      match env.pdf_native_converter file_path with
      | .ok content => .ok content
      | .error e2 => .ok (pdfErrorDoc e e2)
  else if file_format = "image" then env.img_converter file_path
  else if file_format = "json" then
    (env.readFile file_path).map (fun c => "```json\n" ++ c ++ "\n```")
  else if file_format = "xml" then
    (env.readFile file_path).map (fun c => "```xml\n" ++ c ++ "\n```")
  else if file_format = "html" then
    (env.readFile file_path).map (fun c => "```html\n" ++ c ++ "\n```")
  else if file_format = "word" then env.word_converter file_path
  else if file_format = "ppt" then
    match env.ppt_native_converter file_path with
    | .ok content => .ok content
    | .error e => .ok ("# 转换错误\n\nPPT转换失败\n\n错误详情: " ++ e)
  else if file_format = "audio" then
    match env.audio_converter file_path with
    | .ok content => .ok content
    | .error e => .ok ("# 转换错误\n\n音频转换失败\n\n错误详情: " ++ e)
  else if file_format = "video" then
    match env.video_converter file_path with
    | .ok content => .ok content
    | .error e => .ok ("# 转换错误\n\n视频转换失败\n\n错误详情: " ++ e)
  else .ok (unsupportedDoc file_format)

/-- A concrete environment in which both PDF converters raise. -/
def bothFailEnv : ConvEnv :=
  { pdf_converter := fun _ => .error "boom",
    pdf_native_converter := fun _ => .error "crash",
    img_converter := fun _ => .ok "",
    word_converter := fun _ => .ok "",
    ppt_native_converter := fun _ => .ok "",
    audio_converter := fun _ => .ok "",
    video_converter := fun _ => .ok "",
    csv_converter := fun _ => .ok "",
    readFile := fun _ => .ok "" }

/-! ## Archive extraction (`extract_archive_safe`, app.py lines 15-102) -/

/-- Python truthiness of an optional string (`None` and `''` are falsy). -/
def truthy : Option String → Bool
  | none => false
  | some s => s ≠ ""

/-- Python `os.path.basename`: the part after the last slash. -/
def basename (s : String) : String :=
  String.mk ((splitOnChar '/' s.data).getLastD [])

/-- The index at which `os.path.splitext` splits: the last `.` that has some
non-`.` character before it (leading dots never start an extension). -/
def splitextPos (cs : List Char) : Option Nat :=
  ((List.range cs.length).filter (fun i =>
    decide (cs.getD i ' ' = '.' ∧ ∃ j ∈ List.range i, cs.getD j ' ' ≠ '.'))).getLast?

/-- Python `os.path.splitext` (app.py line 40). -/
def splitext (s : String) : String × String :=
  match splitextPos s.data with
  | some i => (String.mk (s.data.take i), String.mk (s.data.drop i))
  | none => (s, "")

/-- The candidate name `f"{base_name}_{counter}{ext}"` of the rename loop
(app.py line 43). -/
def candName (base ext : String) (counter : Nat) : String :=
  base ++ "_" ++ Nat.repr counter ++ ext

/-- The `while os.path.exists(extract_path)` rename loop (app.py lines 39-45):
keep the base filename if it is not yet present in the flat output directory,
otherwise take `base_1`, `base_2`, ... in order, the first not yet present.
`existing` is the list of filenames already written to the directory; a free
candidate always exists within the first `existing.length + 1` tries, so the
bounded search is the loop. -/
def dedupName (existing : List String) (name : String) : String :=
  if name ∈ existing then
    let p := splitext name
    match (List.range (existing.length + 1)).find?
        (fun k => decide (candName p.1 p.2 (k + 1) ∉ existing)) with
    | some k => candName p.1 p.2 (k + 1)
    | none => name
  else name

/-- The decimal digit characters of `n`, most significant first; equal to
core's `Nat.toDigits 10 n` (used to reason about the `f"{base}_{counter}{ext}"`
rename). -/
def toDigitsSimp (n : Nat) : List Char :=
  if _h : n < 10 then [Nat.digitChar n]
  else toDigitsSimp (n / 10) ++ [Nat.digitChar (n % 10)]
termination_by n
decreasing_by exact Nat.div_lt_self (by omega) (by omega)

/-- Numeric value of a decimal digit character. -/
def decodeDigit (c : Char) : Nat := c.toNat - 48

/-- Numeric value of a decimal digit string, most significant first. -/
def decodeDigits (l : List Char) : Nat :=
  l.foldl (fun a c => a * 10 + decodeDigit c) 0

/-- One entry of `zip_ref.infolist()`: its name, directory flag, size, and the
outcome of `zip_ref.open` + `copyfileobj` as a function of the password passed
to `open` — `none` means the bytes were extracted, `some msg` means an
exception with message `msg` was raised (e.g. for a password-protected entry
opened without a password). -/
structure ZipEntry where
  filename : String
  is_dir : Bool
  file_size : Nat
  openResult : Option String → Option String

/-- The per-member dict built by `extract_archive_safe`
(app.py lines 64-72 and 77-85). -/
structure ExtractedFile where
  filename : String
  original_path : String
  extracted_path : Option String
  size : Nat
  format : String
  error : Option String
deriving DecidableEq, Repr

/-- The result dict of `extract_archive_safe` (app.py lines 88-102). On the
wholesale failure path the dict carries only `success`, `error` and `files`;
the counts are modelled as `0` and `temp_dir` as `""` there. -/
structure ExtractResult where
  success : Bool
  total_files : Nat
  extracted_files : Nat
  failed_files : Nat
  files : List ExtractedFile
  temp_dir : String
  error : Option String
deriving DecidableEq, Repr

/-- Line `password.encode() if password else None` (app.py line 48): both a missing
and an empty password yield no password. -/
def effectivePwd (password : Option String) : Option String :=
  match password with
  | none => none
  | some s => if s = "" then none else some s

/-- The running state of the extraction loop: the filenames already written to
the flat temp directory, and the member records accumulated so far. -/
structure ExtractState where
  existing : List String
  files : List ExtractedFile

/-- The loop body of `extract_archive_safe` for one non-directory entry
(app.py lines 33-86): de-duplicate the base filename against the files already
written, open and copy the entry's bytes (which may raise), classify the
(possibly suffixed) filename, and append a success record — or, when the entry
raised, a failure record keeping the entry's full name, format `unknown` and
the exception message. -/
def processEntry (password : Option String) (temp_dir : String)
    (st : ExtractState) (e : ZipEntry) : ExtractState :=
  let filename_only := dedupName st.existing (basename e.filename)
  match e.openResult (effectivePwd password) with
  | none =>
    { existing := st.existing ++ [filename_only],
      files := st.files ++
        [{ filename := filename_only, original_path := e.filename,
           extracted_path := some (temp_dir ++ "/" ++ filename_only),
           size := e.file_size, format := classify filename_only,
           error := none }] }
  | some msg =>
    { existing := st.existing,
      files := st.files ++
        [{ filename := e.filename, original_path := e.filename,
           extracted_path := none, size := e.file_size, format := "unknown",
           error := some msg }] }

/-- Function `extract_archive_safe` (app.py lines 15-102). `archiveOpen = some entries`
models `zipfile.ZipFile` opening successfully with that entry list;
`archiveOpen = none` models the constructor raising (corrupt archive), giving
the wholesale-failure dict. The counts mirror app.py lines 27 and 90-92:
`not f.get('error')` is Python-falsy for both `None` and `''`. -/
def extract_archive_safe (archiveOpen : Option (List ZipEntry))
    (password : Option String) (temp_dir : String) : ExtractResult :=
  match archiveOpen with
  | none =>
    { success := false, total_files := 0, extracted_files := 0,
      failed_files := 0, files := [], temp_dir := "",
      error := some "archive open failed" }
  | some entries =>
    let total_files := (entries.filter (fun e => !e.is_dir)).length
    let st := entries.foldl
      (fun st e => if e.is_dir then st else processEntry password temp_dir st e)
      ⟨[], []⟩
    { success := true, total_files := total_files,
      extracted_files := (st.files.filter (fun f => !truthy f.error)).length,
      failed_files := (st.files.filter (fun f => truthy f.error)).length,
      files := st.files, temp_dir := temp_dir, error := none }

/-- Whether an entry's record will count as failed: its open/copy raised and
the exception message is Python-truthy (non-empty). -/
def entryFails (password : Option String) (e : ZipEntry) : Bool :=
  match e.openResult (effectivePwd password) with
  | none => false
  | some m => m ≠ ""

/-- The status transition of the `/extract/batch` handler (app.py lines
666-703): when the extract result has `success`, the batch status becomes
`extracted`; otherwise the handler raises and its except-branch records
`extract_failed`. -/
def extract_batch_status (r : ExtractResult) : String :=
  if r.success then "extracted" else "extract_failed"

/-- Line `request.form.get('password', '')` (app.py line 593): the stored password
field, the empty string when the form carries none. -/
def upload_password (form_password : Option String) : String :=
  form_password.getD ""

/-- Line `batch_status['password'] or None` (app.py line 670): the stored password
string is coerced to `None` when falsy before being handed to the extractor. -/
def stored_password_or_none (password : String) : Option String :=
  if password = "" then none else some password

/-! ## Batch conversion worker (`convert_batch` / `convert_batch_files`,
app.py lines 712-889) -/

/-- The keys of the `SUPPORTED_FORMATS` dict (app.py lines 199-213). -/
def SUPPORTED_FORMATS : List String :=
  ["pdf", "word", "excel", "ppt", "image", "audio", "video", "html", "csv",
   "json", "xml", "zip", "rar"]

/-- The `conversion_progress` counter group (app.py lines 740-745). -/
structure Progress where
  total : Nat
  completed : Nat
  failed : Nat
  processing : Nat
deriving DecidableEq, Repr

def progressSum (p : Progress) : Nat := p.completed + p.failed + p.processing

/-- The fields of a selected file dict that the worker reads. -/
structure SelFile where
  filename : String
  extracted_path : Option String
  error : Option String
  format : String
deriving DecidableEq, Repr

/-- A selected member is skipped by the worker (app.py lines 784-797) unless
its `extracted_path` is truthy, its `error` is falsy, and a file of the same
name exists in the batch's global file list. -/
def notSkipped (globalNames : List String) (m : SelFile) : Prop :=
  truthy m.extracted_path = true ∧ truthy m.error = false ∧
    m.filename ∈ globalNames

instance (g : List String) (m : SelFile) : Decidable (notSkipped g m) := by
  unfold notSkipped; infer_instance

/-- The worker's running state: the current `conversion_progress`, the
snapshots of it observable after each `save_batch_status` call, the members
for which `convert_file_content` was invoked, and the per-member terminal
`(conversion_status, conversion_error)` updates. -/
structure WorkerState where
  progress : Progress
  observations : List Progress
  dispatched : List SelFile
  outcomes : List (SelFile × String × Option String)
deriving Repr

/-- The loop body of `convert_batch_files` for one selected member (app.py
lines 780-883). `escape` is `some msg` when an exception with message `msg`
escapes the post-dispatch block (output write, `getsize`, history append) into
the member-level except-branch, and `none` when the member completes. Skipped
members (no extracted path, a truthy error, or no matching global file) touch
no counter. An unsupported format is failed before `convert_file_content` is
ever invoked. -/
def processMember (globalNames : List String) (st : WorkerState) (m : SelFile)
    (escape : Option String) : WorkerState :=
  if !truthy m.extracted_path || truthy m.error then st
  else if !globalNames.contains m.filename then st
  else
    let st := { st with observations := st.observations ++ [st.progress] }
    let p1 := { st.progress with processing := st.progress.processing + 1 }
    let st := { st with progress := p1, observations := st.observations ++ [p1] }
    if !SUPPORTED_FORMATS.contains m.format then
      let p2 := { p1 with failed := p1.failed + 1, processing := p1.processing - 1 }
      { st with
        progress := p2, observations := st.observations ++ [p2],
        outcomes := st.outcomes ++
          [(m, "failed", some ("不支持的文件格式: " ++ m.format))] }
    else
      let st := { st with dispatched := st.dispatched ++ [m] }
      match escape with
      | some msg =>
        let p2 := { p1 with failed := p1.failed + 1, processing := p1.processing - 1 }
        { st with
          progress := p2, observations := st.observations ++ [p2],
          outcomes := st.outcomes ++ [(m, "failed", some msg)] }
      | none =>
        let p2 := { p1 with completed := p1.completed + 1, processing := p1.processing - 1 }
        { st with
          progress := p2, observations := st.observations ++ [p2],
          outcomes := st.outcomes ++ [(m, "completed", none)] }

/-- The conversion phase: `/convert/batch` fixes
`conversion_progress = {total: N, completed: 0, failed: 0, processing: 0}`
with `N` the number of selected members and saves it (app.py lines 740-746),
then the worker `convert_batch_files` iterates the selected members
sequentially and finally sets the batch status to `completed` unconditionally
(app.py lines 885-888). Observations are the post-`save_batch_status`
snapshots of the counter group; each selected member is paired with its
escape outcome. Returns the final worker state and the terminal batch
status. -/
def runBatchConversion (globalNames : List String)
    (files : List (SelFile × Option String)) : WorkerState × String :=
  let N := files.length
  let init : WorkerState :=
    { progress := ⟨N, 0, 0, 0⟩, observations := [⟨N, 0, 0, 0⟩],
      dispatched := [], outcomes := [] }
  let final := files.foldl
    (fun st me => processMember globalNames st me.1 me.2) init
  (final, "completed")

/-! ## Concrete inputs used for evaluation -/

/-- An archive entry whose bytes extract under any password. -/
def plainEntry (name : String) (sz : Nat) : ZipEntry :=
  ⟨name, false, sz, fun _ => none⟩

/-- A password-protected entry: opening it without a password raises. -/
def encryptedEntry (name : String) (sz : Nat) : ZipEntry :=
  ⟨name, false, sz, fun pw =>
    match pw with
    | none => some ("File " ++ name ++ " is encrypted, password required for extraction")
    | some _ => none⟩

/-- A directory entry (skipped by the extraction loop). -/
def dirEntry (name : String) : ZipEntry := ⟨name, true, 0, fun _ => none⟩

/-- The spec's scenario archive `docs.zip`: `a.pdf`, a duplicate `a.pdf`, and
`b.txt`. -/
def docsZipEntries : List ZipEntry :=
  [plainEntry "a.pdf" 10, plainEntry "a.pdf" 20, plainEntry "b.txt" 5]

/-- A cleanly extracted PDF member as the worker sees it. -/
def selPdf : SelFile := ⟨"a.pdf", some "/tmp/a.pdf", none, "pdf"⟩

/-- A cleanly extracted member with the classifier tag `unknown`. -/
def selUnknown : SelFile := ⟨"x.bin", some "/tmp/x.bin", none, "unknown"⟩

/-! # Theorems -/

theorem lookup_mem_map_snd {α β : Type} [BEq α] (l : List (α × β)) (k : α)
    (v : β) (h : l.lookup k = some v) : v ∈ l.map Prod.snd := by
  induction l with
  | nil => simp [List.lookup] at h
  | cons p t ih =>
    rw [List.lookup] at h
    by_cases hk : (k == p.1) = true
    · simp [hk] at h
      simp [← h]
    · simp [hk] at h
      exact List.mem_cons_of_mem _ (ih h)

/-- C2: the claim as stated is false on the code: the classifier maps
`b.txt` to the tag `text`, not `unknown`, and `text` lies outside the spec's
closed tag set. -/
theorem C2_txt_counterexample :
    classify "b.txt" = "text" ∧ classify "b.txt" ≠ "unknown" ∧
      "text" ∉ specTagSet := by decide

/-- C2 (amended): `classify` is a pure total function mapping the lower-cased
last extension through the fixed table `format_map`; its range is exactly
`{pdf, word, excel, ppt, image, html, text, csv, json, xml, unknown}` (no
`audio`/`video` tags), any filename whose extension misses the table is tagged
`unknown`, and `.txt` files are tagged `text`. -/
theorem C2_classify_table (f : String) :
    classify f ∈ codeTagSet ∧
    (format_map.lookup (extOf f) = none → classify f = "unknown") ∧
    ["a.pdf", "a.doc", "a.xls", "a.ppt", "a.jpg", "a.html", "a.txt", "a.csv",
      "a.json", "a.xml", "a"].map classify = codeTagSet := by
  refine ⟨?_, fun h => by simp [classify, h], by decide⟩
  unfold classify
  cases h : format_map.lookup (extOf f) with
  | none => decide
  | some v =>
    have hv : v ∈ format_map.map Prod.snd := lookup_mem_map_snd _ _ _ h
    have hsub : ∀ x ∈ format_map.map Prod.snd, x ∈ codeTagSet := by decide
    simp only [Option.getD_some]
    exact hsub v hv

/-- Witness for `C2_classify_table` at the extension-free filename `noext`. -/
theorem C2_classify_table_witness :
    classify "noext" ∈ codeTagSet ∧ classify "noext" = "unknown" :=
  ⟨(C2_classify_table "noext").1, (C2_classify_table "noext").2.1 (by decide)⟩

/-- C8: `add_to_history` prepends the freshly-built record (most recent
first), the log never exceeds the 100-record cap, and overflowing records are
evicted from the tail (the removed part is exactly the `drop 100` suffix of
the prepended log); `delete` and `clear` also preserve the cap. -/
theorem C8_history_cap (uid now nm fmt : String) (sz : Nat)
    (md url hid : String) (history : List HistoryRecord)
    (hcap : history.length ≤ 100) (r : HistoryRecord)
    (hr : r = mkHistoryRecord uid now nm fmt sz md url)
    (out : List HistoryRecord)
    (hout : out = add_to_history uid now nm fmt sz md url history) :
    out.length ≤ 100 ∧ out.head? = some r ∧ out = (r :: history).take 100 ∧
    out ++ (r :: history).drop 100 = r :: history ∧
    (delete_history_item history hid).length ≤ 100 ∧
    clear_history.length ≤ 100 := by
  have hout' : out = (r :: history).take 100 := by
    rw [hout, add_to_history, hr]
    by_cases h : (mkHistoryRecord uid now nm fmt sz md url :: history).length > 100
    · simp [h]
    · rw [if_neg h]
      exact (List.take_of_length_le (by omega)).symm
  refine ⟨?_, ?_, hout', ?_, ?_, by decide⟩
  · rw [hout']
    simp
  · rw [hout', List.take_succ_cons]
    rfl
  · rw [hout']
    exact List.take_append_drop 100 (r :: history)
  · exact le_trans (List.length_filter_le _ _) hcap

/-- Witness for `C8_history_cap` on the empty log. -/
theorem C8_history_cap_witness :
    (add_to_history "id1" "t0" "a.pdf" "pdf" 3 "/d/a.md" "/u" []).length ≤ 100 ∧
    (add_to_history "id1" "t0" "a.pdf" "pdf" 3 "/d/a.md" "/u" []).head? =
      some (mkHistoryRecord "id1" "t0" "a.pdf" "pdf" 3 "/d/a.md" "/u") :=
  ⟨(C8_history_cap "id1" "t0" "a.pdf" "pdf" 3 "/d/a.md" "/u" "x" []
      (by decide) _ rfl _ rfl).1,
   (C8_history_cap "id1" "t0" "a.pdf" "pdf" 3 "/d/a.md" "/u" "x" []
      (by decide) _ rfl _ rfl).2.1⟩

/-- C3: for format tag `pdf`, dispatch tries the OCR converter first, falls
back to the native converter when the first raises, and when both raise
returns the generated error document embedding both messages; in every case
the call returns `.ok` with some markdown string — it never propagates an
exception. -/
theorem C3_pdf_fallback (env : ConvEnv) (p : String) :
    (∃ s, convert_file_content env p "pdf" = .ok s) ∧
    (∀ c, env.pdf_converter p = .ok c →
      convert_file_content env p "pdf" = .ok c) ∧
    (∀ e c, env.pdf_converter p = .error e →
      env.pdf_native_converter p = .ok c →
      convert_file_content env p "pdf" = .ok c) ∧
    (∀ e e2, env.pdf_converter p = .error e →
      env.pdf_native_converter p = .error e2 →
      convert_file_content env p "pdf" = .ok (pdfErrorDoc e e2)) := by
  have hunfold : convert_file_content env p "pdf" =
      match env.pdf_converter p with
      | .ok content => .ok content
      | .error e =>
        match env.pdf_native_converter p with
        | .ok content => .ok content
        | .error e2 => .ok (pdfErrorDoc e e2) := by
    simp [convert_file_content]
  rw [hunfold]
  cases h1 : env.pdf_converter p with
  | ok c => exact ⟨⟨c, rfl⟩, fun c' hc => by simp_all, fun e c' he => by simp_all,
      fun e e2 he => by simp_all⟩
  | error e =>
    cases h2 : env.pdf_native_converter p with
    | ok c => exact ⟨⟨c, rfl⟩, fun c' hc => by simp_all, fun e' c' he hc => by simp_all,
        fun e' e2 he h2' => by simp_all⟩
    | error e2 => exact ⟨⟨pdfErrorDoc e e2, rfl⟩, fun c' hc => by simp_all,
        fun e' c' he hc => by simp_all, fun e' e2' he h2' => by simp_all⟩

/-- Witness for `C3_pdf_fallback`: in an environment where both PDF
converters raise, dispatch returns the error document embedding both
messages. -/
theorem C3_pdf_fallback_witness :
    convert_file_content bothFailEnv "f.pdf" "pdf" =
      .ok (pdfErrorDoc "boom" "crash") :=
  (C3_pdf_fallback bothFailEnv "f.pdf").2.2.2 "boom" "crash" rfl rfl

/-- C10: an explicitly supplied empty-string password behaves identically to
no password: upload stores `''` when the form field is absent, the stored
password is coerced to `None` before extraction, the in-extractor coercion
agrees, and the extraction result of any archive under password `''` equals
the result under no password. -/
theorem C10_empty_password (archiveOpen : Option (List ZipEntry))
    (td : String) :
    upload_password none = "" ∧ upload_password (some "") = "" ∧
    stored_password_or_none (upload_password (some "")) = none ∧
    effectivePwd (some "") = effectivePwd none ∧
    extract_archive_safe archiveOpen
        (stored_password_or_none (upload_password (some ""))) td =
      extract_archive_safe archiveOpen
        (stored_password_or_none (upload_password none)) td :=
  ⟨rfl, rfl, rfl, rfl, rfl⟩

/-- Witness for `C10_empty_password` on a two-entry archive. -/
theorem C10_empty_password_witness :
    extract_archive_safe (some [plainEntry "a.pdf" 1, encryptedEntry "s.pdf" 2])
        (stored_password_or_none (upload_password (some ""))) "/t" =
      extract_archive_safe (some [plainEntry "a.pdf" 1, encryptedEntry "s.pdf" 2])
        (stored_password_or_none (upload_password none)) "/t" :=
  (C10_empty_password (some [plainEntry "a.pdf" 1, encryptedEntry "s.pdf" 2])
    "/t").2.2.2.2

/-- C5: whenever the conversion worker runs to the end of its member list —
including an empty selection and a selection in which every member fails or
is skipped — the terminal batch status is `completed`; no combination of
per-member outcomes yields a different terminal status. -/
theorem C5_terminal_completed (globalNames : List String)
    (files : List (SelFile × Option String)) :
    (runBatchConversion globalNames files).2 = "completed" := rfl

/-- Witness for `C5_terminal_completed`: the empty selection and an
all-failing selection both terminate `completed`. -/
theorem C5_terminal_completed_witness :
    (runBatchConversion [] []).2 = "completed" ∧
    (runBatchConversion ["a.pdf"] [(selPdf, some "boom")]).2 = "completed" :=
  ⟨C5_terminal_completed [] [],
   C5_terminal_completed ["a.pdf"] [(selPdf, some "boom")]⟩

theorem processEntry_ok (pwd : Option String) (td : String)
    (st : ExtractState) (e : ZipEntry)
    (ho : e.openResult (effectivePwd pwd) = none) :
    (processEntry pwd td st e).files = st.files ++
      [{ filename := dedupName st.existing (basename e.filename),
         original_path := e.filename,
         extracted_path :=
           some (td ++ "/" ++ dedupName st.existing (basename e.filename)),
         size := e.file_size,
         format := classify (dedupName st.existing (basename e.filename)),
         error := none }] ∧
    (processEntry pwd td st e).existing =
      st.existing ++ [dedupName st.existing (basename e.filename)] := by
  constructor <;> simp [processEntry, ho]

theorem processEntry_err (pwd : Option String) (td : String)
    (st : ExtractState) (e : ZipEntry) (msg : String)
    (ho : e.openResult (effectivePwd pwd) = some msg) :
    (processEntry pwd td st e).files = st.files ++
      [{ filename := e.filename, original_path := e.filename,
         extracted_path := none, size := e.file_size, format := "unknown",
         error := some msg }] ∧
    (processEntry pwd td st e).existing = st.existing := by
  constructor <;> simp [processEntry, ho]

theorem processEntry_files_step (pwd : Option String) (td : String)
    (st : ExtractState) (e : ZipEntry) :
    ∃ rec : ExtractedFile,
      (processEntry pwd td st e).files = st.files ++ [rec] ∧
      truthy rec.error = entryFails pwd e := by
  cases ho : e.openResult (effectivePwd pwd) with
  | none => exact ⟨_, (processEntry_ok pwd td st e ho).1,
      by simp [truthy, entryFails, ho]⟩
  | some msg => exact ⟨_, (processEntry_err pwd td st e msg ho).1,
      by simp [truthy, entryFails, ho]⟩

theorem extract_fold_stats (pwd : Option String) (td : String)
    (entries : List ZipEntry) (st : ExtractState) :
    (entries.foldl (fun s e => if e.is_dir then s else processEntry pwd td s e)
        st).files.length =
      st.files.length + (entries.filter (fun e => !e.is_dir)).length ∧
    ((entries.foldl (fun s e => if e.is_dir then s else processEntry pwd td s e)
        st).files.filter (fun f => truthy f.error)).length =
      (st.files.filter (fun f => truthy f.error)).length +
        (entries.filter (fun e => !e.is_dir && entryFails pwd e)).length := by
  induction entries generalizing st with
  | nil => simp
  | cons e es ih =>
    simp only [List.foldl_cons]
    by_cases hd : e.is_dir = true
    · rw [if_pos hd]
      have h2 := ih st
      simp only [List.filter_cons, hd]
      simpa using h2
    · rw [if_neg hd]
      rw [Bool.not_eq_true] at hd
      obtain ⟨rec, hfiles, herr⟩ := processEntry_files_step pwd td st e
      have h2 := ih (processEntry pwd td st e)
      rw [hfiles] at h2
      simp only [List.filter_cons, hd]
      constructor
      · rw [h2.1]
        simp only [List.length_append, List.length_cons, List.length_nil,
          Bool.not_false, if_pos]
        omega
      · rw [h2.2, List.filter_append]
        by_cases hf : entryFails pwd e = true
        · simp only [Bool.not_false, hf, Bool.true_and, if_pos,
            List.filter_cons, herr, List.length_append, List.length_cons]
          simp [herr, hf]
          omega
        · rw [Bool.not_eq_true] at hf
          simp only [List.filter_cons, herr, hf, Bool.not_false, Bool.true_and]
          simp [herr, hf]

/-- C4: for any archive that opens successfully with `N` non-directory
entries, extraction succeeds with exactly `N` member records (directories
excluded from the count) and `extracted_files + failed_files = N =
total_files`. -/
theorem C4_extract_counts (entries : List ZipEntry) (pwd : Option String)
    (td : String) (N : Nat)
    (hN : N = (entries.filter (fun e => !e.is_dir)).length)
    (r : ExtractResult) (hr : r = extract_archive_safe (some entries) pwd td) :
    r.success = true ∧ r.total_files = N ∧ r.files.length = N ∧
    r.extracted_files + r.failed_files = N := by
  subst hr hN
  have h := extract_fold_stats pwd td entries ⟨[], []⟩
  unfold extract_archive_safe
  refine ⟨rfl, rfl, ?_, ?_⟩
  · simpa using h.1
  · have hpart := @List.length_eq_length_filter_add ExtractedFile
      ((entries.foldl (fun s e => if e.is_dir then s else processEntry pwd td s e)
        (⟨[], []⟩ : ExtractState)).files) (fun f => truthy f.error)
    have h1 := h.1
    have h2 := h.2
    simp only [List.length_nil, List.filter_nil, Nat.zero_add] at h1 h2
    simp only [] at hpart ⊢
    omega

/-- Witness for `C4_extract_counts` on the spec's three-entry scenario
archive plus a directory entry. -/
theorem C4_extract_counts_witness :
    (extract_archive_safe (some (dirEntry "docs/" :: docsZipEntries)) none
        "/tmp").success = true ∧
    (extract_archive_safe (some (dirEntry "docs/" :: docsZipEntries)) none
        "/tmp").total_files = 3 ∧
    (extract_archive_safe (some (dirEntry "docs/" :: docsZipEntries)) none
        "/tmp").files.length = 3 ∧
    (extract_archive_safe (some (dirEntry "docs/" :: docsZipEntries)) none
        "/tmp").extracted_files +
      (extract_archive_safe (some (dirEntry "docs/" :: docsZipEntries)) none
        "/tmp").failed_files = 3 :=
  C4_extract_counts (dirEntry "docs/" :: docsZipEntries) none "/tmp" 3
    (by decide) _ rfl

/-- C6: a password-protected entry opened without a password fails only that
entry: its record carries the exception message as a non-null `error`, it is
excluded from the extracted count (`extracted + failed = N` with at least one
failure), the remaining entries still produce records (`N` records in total),
and the batch still transitions to `extracted`, not `extract_failed`. -/
theorem C6_password_isolation (pwd : Option String) (td : String)
    (st : ExtractState) (e : ZipEntry) (msg : String)
    (entries : List ZipEntry) (r : ExtractResult)
    (hdir : e.is_dir = false)
    (hopen : e.openResult (effectivePwd pwd) = some msg)
    (hmsg : msg ≠ "")
    (hmem : e ∈ entries)
    (hr : r = extract_archive_safe (some entries) pwd td) :
    (processEntry pwd td st e).files = st.files ++
      [{ filename := e.filename, original_path := e.filename,
         extracted_path := none, size := e.file_size, format := "unknown",
         error := some msg }] ∧
    (processEntry pwd td st e).existing = st.existing ∧
    r.success = true ∧ extract_batch_status r = "extracted" ∧
    1 ≤ r.failed_files ∧
    r.extracted_files + r.failed_files =
      (entries.filter (fun e => !e.is_dir)).length ∧
    r.files.length = (entries.filter (fun e => !e.is_dir)).length := by
  have hcounts := C4_extract_counts entries pwd td _ rfl r hr
  refine ⟨by simp [processEntry, hopen], by simp [processEntry, hopen],
    hcounts.1, ?_, ?_, hcounts.2.2.2, hcounts.2.2.1⟩
  · rw [extract_batch_status, if_pos hcounts.1]
  · subst hr
    have h := (extract_fold_stats pwd td entries ⟨[], []⟩).2
    unfold extract_archive_safe
    simp only []
    have hmemf : e ∈ entries.filter (fun x => !x.is_dir && entryFails pwd x) := by
      refine List.mem_filter.mpr ⟨hmem, ?_⟩
      simp [hdir, entryFails, hopen, hmsg]
    have hpos : 0 < (entries.filter (fun x => !x.is_dir && entryFails pwd x)).length :=
      List.length_pos.mpr (List.ne_nil_of_mem hmemf)
    simp only [List.filter_nil, List.length_nil, Nat.zero_add] at h
    omega

theorem processMember_skip (g : List String) (st : WorkerState) (m : SelFile)
    (esc : Option String) (hskip : ¬ notSkipped g m) :
    processMember g st m esc = st := by
  unfold processMember
  by_cases h1 : (!truthy m.extracted_path || truthy m.error) = true
  · rw [if_pos h1]
  · rw [if_neg h1]
    by_cases h2 : (!List.contains g m.filename) = true
    · rw [if_pos h2]
    · exfalso
      apply hskip
      simp only [Bool.or_eq_true, Bool.not_eq_true'] at h1
      push_neg at h1
      simp only [Bool.not_eq_false] at h1
      simp only [Bool.not_eq_true', List.contains, List.elem_eq_mem,
        decide_eq_false_iff_not, not_not] at h2
      exact ⟨h1.1, Bool.not_eq_true _ ▸ h1.2, h2⟩

theorem notSkipped_conds (g : List String) (m : SelFile)
    (hns : notSkipped g m) :
    (!truthy m.extracted_path || truthy m.error) = false ∧
    (!List.contains g m.filename) = false := by
  obtain ⟨h1, h2, h3⟩ := hns
  constructor
  · rw [h1, h2]
    rfl
  · simp only [List.contains, List.elem_eq_mem, h3]
    simp [h3]

theorem processMember_unsupported (g : List String) (st : WorkerState)
    (m : SelFile) (esc : Option String) (hns : notSkipped g m)
    (hfmt : ¬ m.format ∈ SUPPORTED_FORMATS) :
    processMember g st m esc =
      { progress := { st.progress with failed := st.progress.failed + 1 },
        observations := st.observations ++ [st.progress,
          { st.progress with processing := st.progress.processing + 1 },
          { st.progress with failed := st.progress.failed + 1 }],
        dispatched := st.dispatched,
        outcomes := st.outcomes ++
          [(m, "failed", some ("不支持的文件格式: " ++ m.format))] } := by
  obtain ⟨hc1, hc2⟩ := notSkipped_conds g m hns
  have hfmt' : (!List.contains SUPPORTED_FORMATS m.format) = true := by
    simp only [List.contains, List.elem_eq_mem, hfmt]
    simp [hfmt]
  unfold processMember
  rw [if_neg (by rw [hc1]; exact Bool.false_ne_true),
    if_neg (by rw [hc2]; exact Bool.false_ne_true), if_pos hfmt']
  simp [Nat.add_sub_cancel]

theorem processMember_dispatch_err (g : List String) (st : WorkerState)
    (m : SelFile) (msg : String) (hns : notSkipped g m)
    (hfmt : m.format ∈ SUPPORTED_FORMATS) :
    processMember g st m (some msg) =
      { progress := { st.progress with failed := st.progress.failed + 1 },
        observations := st.observations ++ [st.progress,
          { st.progress with processing := st.progress.processing + 1 },
          { st.progress with failed := st.progress.failed + 1 }],
        dispatched := st.dispatched ++ [m],
        outcomes := st.outcomes ++ [(m, "failed", some msg)] } := by
  obtain ⟨hc1, hc2⟩ := notSkipped_conds g m hns
  have hfmt' : (!List.contains SUPPORTED_FORMATS m.format) = false := by
    simp only [List.contains, List.elem_eq_mem, hfmt]
    simp [hfmt]
  unfold processMember
  rw [if_neg (by rw [hc1]; exact Bool.false_ne_true),
    if_neg (by rw [hc2]; exact Bool.false_ne_true),
    if_neg (by rw [hfmt']; exact Bool.false_ne_true)]
  simp [Nat.add_sub_cancel]

theorem processMember_dispatch_ok (g : List String) (st : WorkerState)
    (m : SelFile) (hns : notSkipped g m)
    (hfmt : m.format ∈ SUPPORTED_FORMATS) :
    processMember g st m none =
      { progress := { st.progress with completed := st.progress.completed + 1 },
        observations := st.observations ++ [st.progress,
          { st.progress with processing := st.progress.processing + 1 },
          { st.progress with completed := st.progress.completed + 1 }],
        dispatched := st.dispatched ++ [m],
        outcomes := st.outcomes ++ [(m, "completed", none)] } := by
  obtain ⟨hc1, hc2⟩ := notSkipped_conds g m hns
  have hfmt' : (!List.contains SUPPORTED_FORMATS m.format) = false := by
    simp only [List.contains, List.elem_eq_mem, hfmt]
    simp [hfmt]
  unfold processMember
  rw [if_neg (by rw [hc1]; exact Bool.false_ne_true),
    if_neg (by rw [hc2]; exact Bool.false_ne_true),
    if_neg (by rw [hfmt']; exact Bool.false_ne_true)]
  simp [Nat.add_sub_cancel]

theorem worker_fold_inv (g : List String)
    (files : List (SelFile × Option String)) (N : Nat) (st : WorkerState)
    (hT : st.progress.total = N) (hP : st.progress.processing = 0)
    (hCF : st.progress.completed + st.progress.failed + files.length ≤ N)
    (hObs : ∀ p ∈ st.observations, progressSum p ≤ N ∧ p.total = N) :
    (∀ p ∈ (files.foldl (fun s me => processMember g s me.1 me.2) st).observations,
        progressSum p ≤ N ∧ p.total = N) ∧
    (files.foldl (fun s me => processMember g s me.1 me.2) st).progress.total = N ∧
    (files.foldl (fun s me => processMember g s me.1 me.2) st).progress.processing = 0 ∧
    (files.foldl (fun s me => processMember g s me.1 me.2) st).progress.completed +
      (files.foldl (fun s me => processMember g s me.1 me.2) st).progress.failed ≤ N ∧
    ((∀ mf ∈ files, notSkipped g mf.1) →
      st.progress.completed + st.progress.failed + files.length = N →
      (files.foldl (fun s me => processMember g s me.1 me.2) st).progress.completed +
        (files.foldl (fun s me => processMember g s me.1 me.2) st).progress.failed = N) := by
  induction files generalizing st with
  | nil =>
    simp only [List.foldl_nil, List.length_nil] at hCF ⊢
    exact ⟨hObs, hT, hP, by omega, fun _ hsum => by omega⟩
  | cons mf rest ih =>
    obtain ⟨m, esc⟩ := mf
    simp only [List.foldl_cons, List.length_cons] at hCF ⊢
    have hobsF : ∀ p ∈ st.observations ++ [st.progress,
        { st.progress with processing := st.progress.processing + 1 },
        { st.progress with failed := st.progress.failed + 1 }],
        progressSum p ≤ N ∧ p.total = N := by
      intro p hp
      rcases List.mem_append.mp hp with hp | hp
      · exact hObs p hp
      · simp only [List.mem_cons, List.not_mem_nil, or_false] at hp
        rcases hp with rfl | rfl | rfl
        · exact ⟨by unfold progressSum; omega, hT⟩
        · exact ⟨by unfold progressSum; simp; omega, hT⟩
        · exact ⟨by unfold progressSum; simp; omega, hT⟩
    have hobsC : ∀ p ∈ st.observations ++ [st.progress,
        { st.progress with processing := st.progress.processing + 1 },
        { st.progress with completed := st.progress.completed + 1 }],
        progressSum p ≤ N ∧ p.total = N := by
      intro p hp
      rcases List.mem_append.mp hp with hp | hp
      · exact hObs p hp
      · simp only [List.mem_cons, List.not_mem_nil, or_false] at hp
        rcases hp with rfl | rfl | rfl
        · exact ⟨by unfold progressSum; omega, hT⟩
        · exact ⟨by unfold progressSum; simp; omega, hT⟩
        · exact ⟨by unfold progressSum; simp; omega, hT⟩
    by_cases hns : notSkipped g m
    · by_cases hfmt : m.format ∈ SUPPORTED_FORMATS
      · cases esc with
        | some msg =>
          rw [processMember_dispatch_err g st m msg hns hfmt]
          have h := ih
            { progress := { st.progress with failed := st.progress.failed + 1 },
              observations := st.observations ++ [st.progress,
                { st.progress with processing := st.progress.processing + 1 },
                { st.progress with failed := st.progress.failed + 1 }],
              dispatched := st.dispatched ++ [m],
              outcomes := st.outcomes ++ [(m, "failed", some msg)] }
            hT hP
            (show st.progress.completed + (st.progress.failed + 1) + rest.length ≤ N by omega)
            hobsF
          refine ⟨h.1, h.2.1, h.2.2.1, h.2.2.2.1, fun hall hsum => ?_⟩
          exact h.2.2.2.2 (fun x hx => hall x (List.mem_cons_of_mem _ hx))
            (show st.progress.completed + (st.progress.failed + 1) + rest.length = N by omega)
        | none =>
          rw [processMember_dispatch_ok g st m hns hfmt]
          have h := ih
            { progress := { st.progress with completed := st.progress.completed + 1 },
              observations := st.observations ++ [st.progress,
                { st.progress with processing := st.progress.processing + 1 },
                { st.progress with completed := st.progress.completed + 1 }],
              dispatched := st.dispatched ++ [m],
              outcomes := st.outcomes ++ [(m, "completed", none)] }
            hT hP
            (show st.progress.completed + 1 + st.progress.failed + rest.length ≤ N by omega)
            hobsC
          refine ⟨h.1, h.2.1, h.2.2.1, h.2.2.2.1, fun hall hsum => ?_⟩
          exact h.2.2.2.2 (fun x hx => hall x (List.mem_cons_of_mem _ hx))
            (show st.progress.completed + 1 + st.progress.failed + rest.length = N by omega)
      · rw [processMember_unsupported g st m esc hns hfmt]
        have h := ih
          { progress := { st.progress with failed := st.progress.failed + 1 },
            observations := st.observations ++ [st.progress,
              { st.progress with processing := st.progress.processing + 1 },
              { st.progress with failed := st.progress.failed + 1 }],
            dispatched := st.dispatched,
            outcomes := st.outcomes ++
              [(m, "failed", some ("不支持的文件格式: " ++ m.format))] }
          hT hP
          (show st.progress.completed + (st.progress.failed + 1) + rest.length ≤ N by omega)
          hobsF
        refine ⟨h.1, h.2.1, h.2.2.1, h.2.2.2.1, fun hall hsum => ?_⟩
        exact h.2.2.2.2 (fun x hx => hall x (List.mem_cons_of_mem _ hx))
          (show st.progress.completed + (st.progress.failed + 1) + rest.length = N by omega)
    · rw [processMember_skip g st m esc hns]
      have h := ih st hT hP (by omega) hObs
      refine ⟨h.1, h.2.1, h.2.2.1, h.2.2.2.1, fun hall hsum => ?_⟩
      exact absurd (hall (m, esc) (List.mem_cons_self _ _)) hns

theorem worker_fold_dispatched (g : List String)
    (files : List (SelFile × Option String)) (st : WorkerState)
    (hds : ∀ x ∈ st.dispatched, x.format ∈ SUPPORTED_FORMATS) :
    ∀ x ∈ (files.foldl (fun s me => processMember g s me.1 me.2) st).dispatched,
      x.format ∈ SUPPORTED_FORMATS := by
  induction files generalizing st with
  | nil => exact hds
  | cons mf rest ih =>
    obtain ⟨m, esc⟩ := mf
    simp only [List.foldl_cons]
    have hext : ∀ x ∈ st.dispatched ++ [m], m.format ∈ SUPPORTED_FORMATS →
        x.format ∈ SUPPORTED_FORMATS := by
      intro x hx hm
      rcases List.mem_append.mp hx with hx | hx
      · exact hds x hx
      · rw [List.mem_singleton] at hx
        subst hx
        exact hm
    by_cases hns : notSkipped g m
    · by_cases hfmt : m.format ∈ SUPPORTED_FORMATS
      · cases esc with
        | some msg =>
          rw [processMember_dispatch_err g st m msg hns hfmt]
          exact ih _ (fun x hx => hext x hx hfmt)
        | none =>
          rw [processMember_dispatch_ok g st m hns hfmt]
          exact ih _ (fun x hx => hext x hx hfmt)
      · rw [processMember_unsupported g st m esc hns hfmt]
        exact ih _ hds
    · rw [processMember_skip g st m esc hns]
      exact ih st hds

/-- C1: the claim as stated is false on the code: on a one-member batch the
very first observable snapshot of `conversion_progress` — the one saved when
conversion is triggered — is `{total: 1, completed: 0, failed: 0,
processing: 0}`, whose three counters sum to `0`, not `total`. -/
theorem C1_sum_counterexample :
    ¬ (∀ p ∈ (runBatchConversion ["a.pdf"] [(selPdf, none)]).1.observations,
        progressSum p = p.total) := by decide

/-- C1 (amended): at every status read during and after conversion
`completed + failed + processing ≤ total` with `total` fixed to the number of
selected members; the sum starts at `0` and reaches `total` only as members
finish, and once the worker has processed every member — provided none was
skipped — `completed + failed = total` with `processing = 0`. -/
theorem C1_progress_bound (g : List String)
    (files : List (SelFile × Option String)) :
    (∀ p ∈ (runBatchConversion g files).1.observations,
        progressSum p ≤ p.total ∧ p.total = files.length) ∧
    ((∀ mf ∈ files, notSkipped g mf.1) →
      (runBatchConversion g files).1.progress.completed +
        (runBatchConversion g files).1.progress.failed = files.length ∧
      (runBatchConversion g files).1.progress.processing = 0) := by
  have hobs0 : ∀ p ∈ [(⟨files.length, 0, 0, 0⟩ : Progress)],
      progressSum p ≤ files.length ∧ p.total = files.length := by
    intro p hp
    simp only [List.mem_singleton] at hp
    subst hp
    exact ⟨show 0 + 0 + 0 ≤ files.length by omega, rfl⟩
  have h := worker_fold_inv g files files.length
    ⟨⟨files.length, 0, 0, 0⟩, [⟨files.length, 0, 0, 0⟩], [], []⟩ rfl rfl
    (show 0 + 0 + files.length ≤ files.length by omega) hobs0
  constructor
  · intro p hp
    refine ⟨?_, (h.1 p hp).2⟩
    rw [(h.1 p hp).2]
    exact (h.1 p hp).1
  · intro hall
    exact ⟨h.2.2.2.2 hall (show 0 + 0 + files.length = files.length by omega),
      h.2.2.1⟩

/-- Witness for `C1_progress_bound` on a one-member batch: the final counters
satisfy `completed + failed = total = 1` and `processing = 0`. -/
theorem C1_progress_bound_witness :
    (runBatchConversion ["a.pdf"] [(selPdf, none)]).1.progress.completed +
      (runBatchConversion ["a.pdf"] [(selPdf, none)]).1.progress.failed = 1 ∧
    (runBatchConversion ["a.pdf"] [(selPdf, none)]).1.progress.processing = 0 :=
  (C1_progress_bound ["a.pdf"] [(selPdf, none)]).2 (by decide)

/-- C9: a non-skipped member whose format tag is not a key of
`SUPPORTED_FORMATS` (and `unknown` and `text` are not keys) is marked
`failed` with the unsupported-format error message, counted in
`conversionProgress.failed`, and `convert_file_content` is never invoked for
it — during a whole batch run dispatch only ever sees supported tags — so the
member never receives the placeholder document dispatch would produce for
such a tag. -/
theorem C9_unsupported_member (g : List String) (st : WorkerState)
    (m : SelFile) (esc : Option String)
    (files : List (SelFile × Option String)) (env : ConvEnv) (path : String)
    (hns : notSkipped g m) (hfmt : m.format ∉ SUPPORTED_FORMATS) :
    (processMember g st m esc).dispatched = st.dispatched ∧
    (processMember g st m esc).outcomes = st.outcomes ++
      [(m, "failed", some ("不支持的文件格式: " ++ m.format))] ∧
    (processMember g st m esc).progress.failed = st.progress.failed + 1 ∧
    (processMember g st m esc).progress.completed = st.progress.completed ∧
    (∀ x ∈ (runBatchConversion g files).1.dispatched,
      x.format ∈ SUPPORTED_FORMATS) ∧
    ("unknown" ∉ SUPPORTED_FORMATS ∧ "text" ∉ SUPPORTED_FORMATS) ∧
    convert_file_content env path m.format = .ok (unsupportedDoc m.format) := by
  rw [processMember_unsupported g st m esc hns hfmt]
  refine ⟨rfl, rfl, rfl, rfl, ?_, by decide, ?_⟩
  · exact worker_fold_dispatched g files _ (fun x hx => absurd hx (List.not_mem_nil x))
  · have h1 : ¬ m.format = "csv" := fun hh => hfmt (by rw [hh]; decide)
    have h2 : ¬ m.format = "pdf" := fun hh => hfmt (by rw [hh]; decide)
    have h3 : ¬ m.format = "image" := fun hh => hfmt (by rw [hh]; decide)
    have h4 : ¬ m.format = "json" := fun hh => hfmt (by rw [hh]; decide)
    have h5 : ¬ m.format = "xml" := fun hh => hfmt (by rw [hh]; decide)
    have h6 : ¬ m.format = "html" := fun hh => hfmt (by rw [hh]; decide)
    have h7 : ¬ m.format = "word" := fun hh => hfmt (by rw [hh]; decide)
    have h8 : ¬ m.format = "ppt" := fun hh => hfmt (by rw [hh]; decide)
    have h9 : ¬ m.format = "audio" := fun hh => hfmt (by rw [hh]; decide)
    have h10 : ¬ m.format = "video" := fun hh => hfmt (by rw [hh]; decide)
    unfold convert_file_content
    rw [if_neg h1, if_neg h2, if_neg h3, if_neg h4, if_neg h5, if_neg h6,
      if_neg h7, if_neg h8, if_neg h9, if_neg h10]

/-- Witness for `C9_unsupported_member`: a member tagged `unknown` is failed
with the unsupported-format message, and dispatch would have produced the
placeholder document for that tag. -/
theorem C9_unsupported_member_witness :
    (processMember ["x.bin"] ⟨⟨1, 0, 0, 0⟩, [], [], []⟩ selUnknown none).outcomes =
      [(selUnknown, "failed", some ("不支持的文件格式: " ++ "unknown"))] ∧
    convert_file_content bothFailEnv "/tmp/x.bin" "unknown" =
      .ok (unsupportedDoc "unknown") := by
  have h := C9_unsupported_member ["x.bin"] ⟨⟨1, 0, 0, 0⟩, [], [], []⟩
    selUnknown none [] bothFailEnv "/tmp/x.bin" (by decide) (by decide)
  exact ⟨h.2.1, h.2.2.2.2.2.2⟩

theorem toDigitsCore_eq_toDigitsSimp :
    ∀ (fuel n : Nat) (ds : List Char), n < fuel →
      Nat.toDigitsCore 10 fuel n ds = toDigitsSimp n ++ ds := by
  intro fuel
  induction fuel with
  | zero => intro n ds h; omega
  | succ f ih =>
    intro n ds h
    show (if n / 10 = 0 then Nat.digitChar (n % 10) :: ds
      else Nat.toDigitsCore 10 f (n / 10) (Nat.digitChar (n % 10) :: ds)) =
      toDigitsSimp n ++ ds
    by_cases h0 : n / 10 = 0
    · rw [if_pos h0]
      have hn : n < 10 := by omega
      have hmod : n % 10 = n := Nat.mod_eq_of_lt hn
      rw [toDigitsSimp, dif_pos hn, hmod]
      rfl
    · rw [if_neg h0]
      have hn : ¬ n < 10 := by omega
      have hlt : n / 10 < f := by omega
      rw [ih (n / 10) (Nat.digitChar (n % 10) :: ds) hlt]
      conv_rhs => rw [toDigitsSimp]
      rw [dif_neg hn, List.append_assoc]
      rfl

theorem decodeDigits_snoc (l : List Char) (c : Char) :
    decodeDigits (l ++ [c]) = decodeDigits l * 10 + decodeDigit c := by
  unfold decodeDigits
  rw [List.foldl_append]
  rfl

theorem decodeDigit_digitChar : ∀ d, d < 10 → decodeDigit (Nat.digitChar d) = d := by
  decide

theorem decode_toDigitsSimp (n : Nat) : decodeDigits (toDigitsSimp n) = n := by
  induction n using Nat.strong_induction_on with
  | _ n ih =>
    by_cases h : n < 10
    · rw [toDigitsSimp, dif_pos h]
      have := decodeDigit_digitChar n h
      simp [decodeDigits, decodeDigit] at this ⊢
      omega
    · rw [toDigitsSimp, dif_neg h, decodeDigits_snoc,
        ih (n / 10) (Nat.div_lt_self (by omega) (by omega)),
        decodeDigit_digitChar _ (Nat.mod_lt n (by omega))]
      omega

theorem repr_injective : Function.Injective Nat.repr := by
  intro a b h
  have key : ∀ m : Nat, Nat.repr m = List.asString (toDigitsSimp m) := by
    intro m
    show (Nat.toDigits 10 m).asString = _
    rw [Nat.toDigits, toDigitsCore_eq_toDigitsSimp (m + 1) m [] (Nat.lt_succ_self m),
      List.append_nil]
  rw [key a, key b] at h
  have hd : toDigitsSimp a = toDigitsSimp b := congrArg String.data h
  have := congrArg decodeDigits hd
  rwa [decode_toDigitsSimp, decode_toDigitsSimp] at this

theorem candName_injective (base ext : String) :
    Function.Injective (candName base ext) := by
  intro a b h
  apply repr_injective
  have hd := congrArg String.data h
  simp only [candName, String.data_append, List.append_assoc] at hd
  have h1 := List.append_cancel_left hd
  have h2 := List.append_cancel_left h1
  exact String.ext (List.append_cancel_right h2)

theorem dedupName_not_mem (existing : List String) (name : String) :
    dedupName existing name ∉ existing := by
  unfold dedupName
  by_cases h : name ∈ existing
  · rw [if_pos h]
    cases hf : (List.range (existing.length + 1)).find?
        (fun k => decide (candName (splitext name).1
          (splitext name).2 (k + 1) ∉ existing)) with
    | some k =>
      simp only [hf]
      have hp := List.find?_some hf
      exact of_decide_eq_true hp
    | none =>
      exfalso
      have hall : ∀ k ∈ List.range (existing.length + 1),
          (candName (splitext name).1 (splitext name).2 (k + 1)) ∈ existing := by
        intro k hk
        have := List.find?_eq_none.mp hf k hk
        simp only [decide_eq_true_eq, not_not] at this
        exact this
      have hinj : Function.Injective
          (fun k => candName (splitext name).1 (splitext name).2 (k + 1)) := by
        intro x y hxy
        have := candName_injective (splitext name).1 (splitext name).2 hxy
        omega
      have hnodup : ((List.range (existing.length + 1)).map
          (fun k => candName (splitext name).1 (splitext name).2 (k + 1))).Nodup :=
        (List.nodup_range _).map hinj
      have hsub : ((List.range (existing.length + 1)).map
          (fun k => candName (splitext name).1 (splitext name).2 (k + 1))) ⊆
            existing := by
        intro x hx
        obtain ⟨k, hk, rfl⟩ := List.mem_map.mp hx
        exact hall k hk
      have hle := (List.subperm_of_subset hnodup hsub).length_le
      simp only [List.length_map, List.length_range] at hle
      omega
  · rw [if_neg h]
    exact h

theorem string_prepend_injective (td : String) :
    Function.Injective (fun n => td ++ "/" ++ n) := by
  intro a b h
  have hd := congrArg String.data h
  simp only [String.data_append, List.append_assoc] at hd
  have h1 := List.append_cancel_left hd
  exact String.ext (List.append_cancel_left h1)

theorem extract_fold_nodup (pwd : Option String) (td : String)
    (entries : List ZipEntry) (st : ExtractState)
    (hex : st.existing.Nodup)
    (hpaths : st.files.filterMap (fun f => f.extracted_path) =
      st.existing.map (fun n => td ++ "/" ++ n)) :
    (entries.foldl (fun s e => if e.is_dir then s else processEntry pwd td s e)
        st).existing.Nodup ∧
    (entries.foldl (fun s e => if e.is_dir then s else processEntry pwd td s e)
        st).files.filterMap (fun f => f.extracted_path) =
      (entries.foldl (fun s e => if e.is_dir then s else processEntry pwd td s e)
        st).existing.map (fun n => td ++ "/" ++ n) := by
  induction entries generalizing st with
  | nil => exact ⟨hex, hpaths⟩
  | cons e es ih =>
    simp only [List.foldl_cons]
    by_cases hd : e.is_dir = true
    · rw [if_pos hd]
      exact ih st hex hpaths
    · rw [if_neg hd]
      apply ih
      · cases ho : e.openResult (effectivePwd pwd) with
        | none =>
          rw [(processEntry_ok pwd td st e ho).2]
          rw [List.nodup_append]
          refine ⟨hex, List.nodup_singleton _, ?_⟩
          intro a ha hmem
          rw [List.mem_singleton] at hmem
          subst hmem
          exact dedupName_not_mem st.existing (basename e.filename) ha
        | some msg =>
          rw [(processEntry_err pwd td st e msg ho).2]
          exact hex
      · cases ho : e.openResult (effectivePwd pwd) with
        | none =>
          rw [(processEntry_ok pwd td st e ho).1,
            (processEntry_ok pwd td st e ho).2,
            List.filterMap_append, List.map_append, hpaths]
          rfl
        | some msg =>
          rw [(processEntry_err pwd td st e msg ho).1,
            (processEntry_err pwd td st e msg ho).2,
            List.filterMap_append, hpaths]
          simp

/-- C7: within one extraction every two entries extracted into the flat
working directory receive distinct paths (filename collisions are resolved by
the `_1`, `_2`, ... suffix loop); on the spec's scenario archive with the
duplicate `a.pdf` the members come out as `a.pdf`, `a_1.pdf`, `b.txt` in
entry order. -/
theorem C7_distinct_paths (entries : List ZipEntry) (pwd : Option String)
    (td : String) (r : ExtractResult)
    (hr : r = extract_archive_safe (some entries) pwd td) :
    (r.files.filterMap (fun f => f.extracted_path)).Nodup ∧
    (extract_archive_safe (some docsZipEntries) none "/tmp").files.map
        (fun f => f.filename) = ["a.pdf", "a_1.pdf", "b.txt"] := by
  constructor
  · subst hr
    unfold extract_archive_safe
    simp only []
    have h := extract_fold_nodup pwd td entries ⟨[], []⟩ (by simp) (by simp)
    rw [h.2]
    exact h.1.map (string_prepend_injective td)
  · decide

/-- Witness for `C7_distinct_paths`: the scenario archive's extracted paths
are pairwise distinct and the duplicate receives the `_1` suffix. -/
theorem C7_distinct_paths_witness :
    ((extract_archive_safe (some docsZipEntries) none "/tmp").files.filterMap
      (fun f => f.extracted_path)).Nodup ∧
    (extract_archive_safe (some docsZipEntries) none "/tmp").files.map
        (fun f => f.filename) = ["a.pdf", "a_1.pdf", "b.txt"] :=
  ⟨(C7_distinct_paths docsZipEntries none "/tmp" _ rfl).1,
   (C7_distinct_paths docsZipEntries none "/tmp" _ rfl).2⟩

/-- Witness for `C6_password_isolation`: an archive with one plain and one
encrypted entry, extracted without a password. -/
theorem C6_password_isolation_witness :
    (extract_archive_safe
        (some [plainEntry "a.pdf" 1, encryptedEntry "s.pdf" 2]) none
        "/t").success = true ∧
    extract_batch_status
      (extract_archive_safe
        (some [plainEntry "a.pdf" 1, encryptedEntry "s.pdf" 2]) none "/t") =
      "extracted" ∧
    1 ≤ (extract_archive_safe
        (some [plainEntry "a.pdf" 1, encryptedEntry "s.pdf" 2]) none
        "/t").failed_files := by
  have h := C6_password_isolation none "/t" ⟨[], []⟩ (encryptedEntry "s.pdf" 2)
    ("File " ++ "s.pdf" ++ " is encrypted, password required for extraction")
    [plainEntry "a.pdf" 1, encryptedEntry "s.pdf" 2] _ rfl rfl (by decide)
    (List.mem_cons_of_mem _ (List.mem_cons_self _ _)) rfl
  exact ⟨h.2.2.1, h.2.2.2.1, h.2.2.2.2.1⟩

end Reguard
